import Mathlib

/-!
Shallow embedding of the CMake cache model from
`utils/build_swift/build_swift/wrappers/cmake.py`.

The embedding mirrors the Python module at the granularity the statements
below need: a `PyVal` type stands for the Python values the module is
exercised with (strings, booleans, integers, `None`, lists and tuples);
Python's `==`, `str()`, `repr()` and `int()` are modelled by `pyEq`,
`pyStr`, `pyRepr` and `pyInt?` on that universe (ASCII scope; CPython's
`upper`, `repr` escapes and `int` also accept non-ASCII text, which the
module never relies on).  Exceptions are modelled with `Except PyErr`.
-/

/-- Model of the Python values the cmake wrapper module operates on. -/
inductive PyVal where
  | str (s : String)
  | bool (b : Bool)
  | int (n : Int)
  | none
  | list (elems : List PyVal)
  | tuple (elems : List PyVal)

/-- Error identities raised by the module: `ValueError` for invalid names,
booleans, list values and unknown type names, and `KeyError` from
`CMakeCache.unset`.  The spec refers to them as `InvalidName`,
`InvalidBoolean`, `InvalidListValue`, `UnknownType` and `NotFound`. -/
inductive PyErr where
  | invalidName
  | invalidBoolean
  | invalidListValue
  | unknownType
  | notFound
deriving DecidableEq, Repr

mutual

/-- Python `==` on `PyVal` (`bool` is an `int` subclass, so `True == 1`;
lists and tuples compare elementwise and never compare equal to each
other; values of unrelated types are unequal). -/
def pyEq : PyVal → PyVal → Bool
  | .str s, .str t => s == t
  | .bool b, .bool c => b == c
  | .bool b, .int n => (if b then (1 : Int) else 0) == n
  | .int n, .bool b => n == (if b then (1 : Int) else 0)
  | .int n, .int m => n == m
  | .none, .none => true
  | .list xs, .list ys => pyEqList xs ys
  | .tuple xs, .tuple ys => pyEqList xs ys
  | _, _ => false

/-- Elementwise Python `==` on lists of values. -/
def pyEqList : List PyVal → List PyVal → Bool
  | [], [] => true
  | x :: xs, y :: ys => pyEq x y && pyEqList xs ys
  | _, _ => false

end

/-- One escaped character of a Python string `repr`, for quote
character `q` (printable-ASCII scope). -/
def pyReprEscape (q : Char) (c : Char) : String :=
  if c = '\\' then "\\\\"
  else if c = '\n' then "\\n"
  else if c = '\r' then "\\r"
  else if c = '\t' then "\\t"
  else if c = q then "\\" ++ q.toString
  else c.toString

/-- Python `repr` of a string: single-quoted unless the string holds a
single quote and no double quote. -/
def pyReprString (s : String) : String :=
  let q : Char := if s.data.contains '\'' && !(s.data.contains '\"') then '\"' else '\''
  q.toString ++ String.join (s.data.map (pyReprEscape q)) ++ q.toString

mutual

/-- Python `repr` on `PyVal`. -/
def pyRepr : PyVal → String
  | .str s => pyReprString s
  | .bool b => if b then "True" else "False"
  | .int n => toString n
  | .none => "None"
  | .list xs => "[" ++ pyReprJoin xs ++ "]"
  | .tuple [x] => "(" ++ pyRepr x ++ ",)"
  | .tuple xs => "(" ++ pyReprJoin xs ++ ")"

/-- Comma-joined `repr`s of the elements of a list or tuple. -/
def pyReprJoin : List PyVal → String
  | [] => ""
  | [x] => pyRepr x
  | x :: xs => pyRepr x ++ ", " ++ pyReprJoin xs

end

/-- Python `str()` (`six.text_type`) on `PyVal`: a string is itself, every
other value prints as its `repr` (`str(True) = "True"`, `str(None) =
"None"`, integers in decimal). -/
def pyStr : PyVal → String
  | .str s => s
  | v => pyRepr v

/-- Python `s.upper()` (ASCII scope, matching the module's usage). -/
def pyUpper (s : String) : String :=
  ⟨s.data.map Char.toUpper⟩

/-- Whitespace stripped by Python's `int()` before parsing: space, tab,
the newline family, and the ASCII separator control characters
`0x1c`-`0x1f`, which CPython also treats as whitespace. -/
def isPyWs (c : Char) : Bool :=
  c == ' ' || c == '\t' || c == '\n' || c == '\r' || c == '\x0b' || c == '\x0c' ||
    c == '\x1c' || c == '\x1d' || c == '\x1e' || c == '\x1f'

/-- Strip leading and trailing whitespace from a character list. -/
def pyStripWs (cs : List Char) : List Char :=
  ((cs.dropWhile isPyWs).reverse.dropWhile isPyWs).reverse

/-- Digit run of Python's integer grammar, after the first digit: decimal
digits with single underscores allowed only between digits (`lastU`
records whether the previous character was an underscore, so a
consecutive or trailing underscore is rejected, per PEP 515). -/
def goDigits : List Char → Nat → Bool → Option Nat
  | [], acc, lastU => if lastU then Option.none else some acc
  | c :: rest, acc, lastU =>
    if c.isDigit then goDigits rest (acc * 10 + (c.toNat - 48)) false
    else if c == '_' then
      if lastU then Option.none else goDigits rest acc true
    else Option.none

/-- Unsigned digit string of Python's `int()` grammar: nonempty, starts
with a digit, underscores only between digits. -/
def pyDigits? : List Char → Option Nat
  | [] => Option.none
  | c :: rest => if c.isDigit then goDigits rest (c.toNat - 48) false else Option.none

/-- Python `int(s)` on text: strip whitespace, optional single sign, then
a digit string; `Option.none` models the `ValueError`. -/
def pyInt? (s : String) : Option Int :=
  match pyStripWs s.data with
  | '-' :: rest => (pyDigits? rest).map (fun n => -(n : Int))
  | '+' :: rest => (pyDigits? rest).map (fun n => (n : Int))
  | cs => (pyDigits? cs).map (fun n => (n : Int))

-- ------------------------------------------------------------------
-- Constants of the module (cmake.py lines 40-43)

def _TRUTHY_VALUES : List String := ["TRUE", "ON", "YES", "Y"]

def _FALSEY_VALUES : List String := ["0", "FALSE", "OFF", "NO", "N", "IGNORE", "NOTFOUND"]

def _NOTFOUND_SUFFIX : String := "-NOTFOUND"

/-- Python `s.endswith(suffix)`. -/
def pyEndsWith (s suffix : String) : Bool :=
  suffix.data.isSuffixOf s.data

-- ------------------------------------------------------------------
-- Truthy / falsey classifier (cmake.py lines 54-88)

/-- `_is_truthy(value)`: uppercase `str(value)` and test membership in
`_TRUTHY_VALUES`, else try `int(...) != 0`. -/
def _is_truthy (value : PyVal) : Bool :=
  let v := pyUpper (pyStr value)
  if _TRUTHY_VALUES.contains v then true
  else
    match pyInt? v with
    | some n => n != 0
    | Option.none => false

/-- `_is_falsey(value)`: uppercase `str(value)` and test the empty string,
membership in `_FALSEY_VALUES`, or the `-NOTFOUND` suffix. -/
def _is_falsey (value : PyVal) : Bool :=
  let v := pyUpper (pyStr value)
  v == "" || _FALSEY_VALUES.contains v || pyEndsWith v _NOTFOUND_SUFFIX

/-- `_cmake_bool(value)`: truthy wins, then falsey, else `ValueError`
(`InvalidBoolean`). -/
def _cmake_bool (value : PyVal) : Except PyErr Bool :=
  if _is_truthy value then .ok true
  else if _is_falsey value then .ok false
  else .error .invalidBoolean

-- ------------------------------------------------------------------
-- Value wrappers (cmake.py lines 91-142)

/-- Tagged union for the `_ValueWrapper` hierarchy: `scalar` for the base
class `_ValueWrapper`, `boolW` for `_BoolWrapper`, `listW` for
`_ListWrapper`.  Each constructor carries the Python object stored in the
wrapper's `value` slot. -/
inductive ValueWrapper where
  | scalar (value : PyVal)
  | boolW (value : Bool)
  | listW (value : List PyVal)

/-- The `value` slot of a wrapper, as the Python object it holds. -/
def ValueWrapper.value : ValueWrapper → PyVal
  | .scalar v => v
  | .boolW b => .bool b
  | .listW l => .list l

/-- `_BoolWrapper.__init__`: the stored value is `_cmake_bool(value)`. -/
def _BoolWrapper.mk (value : PyVal) : Except PyErr ValueWrapper :=
  (_cmake_bool value).map .boolW

/-- `_ListWrapper.__init__`: requires `isinstance(value, list)`, else
`ValueError` (`InvalidListValue`). -/
def _ListWrapper.mk (value : PyVal) : Except PyErr ValueWrapper :=
  match value with
  | .list l => .ok (.listW l)
  | _ => .error .invalidListValue

/-- Left-operand `__eq__` of the wrapper classes: `_ValueWrapper.__eq__`
checks `isinstance(other, type(self))`, so a `scalar` (base class)
accepts every wrapper, while `boolW` and `listW` (subclasses) accept
only their own variant; `Option.none` models `NotImplemented`. -/
def wrapperEqL : ValueWrapper → ValueWrapper → Option Bool
  | .scalar v, w => some (pyEq v w.value)
  | .boolW b, .boolW c => some (pyEq (.bool b) (.bool c))
  | .boolW _, _ => Option.none
  | .listW l, .listW m => some (pyEq (.list l) (.list m))
  | .listW _, _ => Option.none

/-- Python `==` on wrappers: try the left `__eq__`, then the reflected
right `__eq__`, then fall back to identity (false for distinct
objects). -/
def wrapperEq (a b : ValueWrapper) : Bool :=
  match wrapperEqL a b with
  | some r => r
  | Option.none =>
    match wrapperEqL b a with
    | some r => r
    | Option.none => false

/-- `__str__` of the wrapper classes: a scalar prints `str(value)`, a bool
prints `str(value).upper()` (`TRUE`/`FALSE`), a list joins its elements'
`str` with `";"`. -/
def wrapperStr : ValueWrapper → String
  | .scalar v => pyStr v
  | .boolW b => pyUpper (pyStr (.bool b))
  | .listW l => String.intercalate ";" (l.map pyStr)

-- ------------------------------------------------------------------
-- CMake value types (cmake.py lines 149-201)

/-- `CMakeValueType`: the five members registered at module load. -/
inductive CMakeValueType where
  | BOOL
  | FILEPATH
  | PATH
  | STRING
  | INTERNAL
deriving DecidableEq, Repr

/-- The `name` attribute of a `CMakeValueType` member. -/
def CMakeValueType.name : CMakeValueType → String
  | .BOOL => "BOOL"
  | .FILEPATH => "FILEPATH"
  | .PATH => "PATH"
  | .STRING => "STRING"
  | .INTERNAL => "INTERNAL"

/-- `CMakeValueType.from_name`: scan the registered members for a matching
name, else `ValueError` (`UnknownType`). -/
def CMakeValueType.from_name (name : String) : Except PyErr CMakeValueType :=
  if name == "BOOL" then .ok .BOOL
  else if name == "FILEPATH" then .ok .FILEPATH
  else if name == "PATH" then .ok .PATH
  else if name == "STRING" then .ok .STRING
  else if name == "INTERNAL" then .ok .INTERNAL
  else .error .unknownType

/-- The `value_type` argument a caller can pass to `CMakeCacheEntry`:
absent (`None`), a registry member, or a type name as text. -/
inductive VTArg where
  | noneA
  | member (t : CMakeValueType)
  | text (s : String)

/-- Python `value_type == CMakeValueType.BOOL` on a `VTArg`: member
comparison is by name; a string never equals a member
(`CMakeValueType.__eq__` returns `NotImplemented` for non-members and the
reflected string comparison is false), nor does `None`. -/
def VTArg.eqBOOL : VTArg → Bool
  | .member t => t == .BOOL
  | _ => false

/-- The `isinstance(value_type, six.string_types)` resolution step: text
is looked up with `from_name`, a member or `None` passes through. -/
def VTArg.resolve : VTArg → Except PyErr (Option CMakeValueType)
  | .noneA => .ok Option.none
  | .member t => .ok (some t)
  | .text s => (CMakeValueType.from_name s).map some

/-- Lift an optional registry member into a `VTArg`. -/
def VTArg.ofOption : Option CMakeValueType → VTArg
  | Option.none => .noneA
  | some t => .member t

-- ------------------------------------------------------------------
-- Cache entries (cmake.py lines 208-278)

/-- `isinstance(value, list)`. -/
def isPyList : PyVal → Bool
  | .list _ => true
  | _ => false

/-- `isinstance(value, bool)` (no other `PyVal` is a Python `bool`). -/
def isPyBool : PyVal → Bool
  | .bool _ => true
  | _ => false

/-- A constructed `CMakeCacheEntry`: slots `_name`, `_value_wrapper`,
`_value_type`. -/
structure CMakeCacheEntry where
  _name : String
  _value_wrapper : ValueWrapper
  _value_type : Option CMakeValueType

/-- `CMakeCacheEntry.__init__`: reject a non-text or empty name; a list
value becomes a `_ListWrapper` with type forced to `STRING`; a bool value
or a caller type equal to the `BOOL` member becomes a `_BoolWrapper` with
type forced to `BOOL`; anything else becomes a base `_ValueWrapper`, with
a textual caller type resolved through `from_name`. -/
def CMakeCacheEntry.init (name value : PyVal) (value_type : VTArg) :
    Except PyErr CMakeCacheEntry :=
  match name with
  | .str nameStr =>
    if nameStr.length < 1 then .error .invalidName
    else if isPyList value then do
      let w ← _ListWrapper.mk value
      .ok ⟨nameStr, w, some .STRING⟩
    else if isPyBool value || value_type.eqBOOL then do
      let w ← _BoolWrapper.mk value
      .ok ⟨nameStr, w, some .BOOL⟩
    else do
      let vt ← value_type.resolve
      .ok ⟨nameStr, .scalar value, vt⟩
  | _ => .error .invalidName

/-- The `name` property. -/
def CMakeCacheEntry.name (e : CMakeCacheEntry) : String := e._name

/-- The `value` property: the wrapped Python object. -/
def CMakeCacheEntry.value (e : CMakeCacheEntry) : PyVal := e._value_wrapper.value

/-- The `value_type` property. -/
def CMakeCacheEntry.value_type (e : CMakeCacheEntry) : Option CMakeValueType :=
  e._value_type

/-- `CMakeCacheEntry.__str__`: `NAME=VALUE` without a type,
`NAME:TYPE=VALUE` with one. -/
def CMakeCacheEntry.render (e : CMakeCacheEntry) : String :=
  match e._value_type with
  | Option.none => e._name ++ "=" ++ wrapperStr e._value_wrapper
  | some t => e._name ++ ":" ++ t.name ++ "=" ++ wrapperStr e._value_wrapper

-- ------------------------------------------------------------------
-- Cache container (cmake.py lines 281-369)

/-- `CMakeCache`: the `_entries` `OrderedDict`, modelled as an
association list in insertion order with unique keys. -/
structure CMakeCache where
  _entries : List (String × CMakeCacheEntry)

/-- `CMakeCache()`. -/
def CMakeCache.empty : CMakeCache := ⟨[]⟩

/-- `OrderedDict` assignment `d[k] = e`: replace in place when the key is
present (keeping its original position), append otherwise. -/
def odAssign (l : List (String × CMakeCacheEntry)) (k : String)
    (e : CMakeCacheEntry) : List (String × CMakeCacheEntry) :=
  if l.any (fun p => p.1 == k) then
    l.map (fun p => if p.1 == k then (k, e) else p)
  else l ++ [(k, e)]

/-- `CMakeCache.set`: construct the entry, then assign it under the name;
a construction failure propagates before any assignment happens. -/
def CMakeCache.set (c : CMakeCache) (name value : PyVal) (value_type : VTArg) :
    Except PyErr CMakeCache :=
  (CMakeCacheEntry.init name value value_type).map
    (fun e => ⟨odAssign c._entries e._name e⟩)

/-- `CMakeCache.get(name, default)`: the stored entry, or the default. -/
def CMakeCache.get (c : CMakeCache) (name : String)
    (default : Option CMakeCacheEntry) : Option CMakeCacheEntry :=
  match c._entries.find? (fun p => p.1 == name) with
  | some p => some p.2
  | Option.none => default

/-- `CMakeCache.unset(name)`: `dict.pop` — remove the entry or raise
`KeyError` (`NotFound`). -/
def CMakeCache.unset (c : CMakeCache) (name : String) : Except PyErr CMakeCache :=
  if c._entries.any (fun p => p.1 == name) then
    .ok ⟨c._entries.filter (fun p => !(p.1 == name))⟩
  else .error .notFound

/-- `CMakeCache.clear()`. -/
def CMakeCache.clear (_c : CMakeCache) : CMakeCache := ⟨[]⟩

/-- The `entries` property: values in insertion order. -/
def CMakeCache.entries (c : CMakeCache) : List CMakeCacheEntry :=
  c._entries.map (fun p => p.2)

/-- The `args` property: `"-D" + str(entry)` per entry, in order. -/
def CMakeCache.args (c : CMakeCache) : List String :=
  c.entries.map (fun e => "-D" ++ e.render)

/-- `CMakeCache.__iadd__`: `self._entries.update(other._entries)` —
assign every entry of `other` in order. -/
def CMakeCache.iadd (c other : CMakeCache) : CMakeCache :=
  ⟨other._entries.foldl (fun acc p => odAssign acc p.1 p.2) c._entries⟩

/-- `CMakeCache.__add__`: a fresh cache, `+= self`, `+= other`. -/
def CMakeCache.add (c other : CMakeCache) : CMakeCache :=
  (CMakeCache.empty.iadd c).iadd other

-- ------------------------------------------------------------------
-- Helper lemmas about the integer grammar and stripping

theorem goDigits_chars {cs : List Char} {acc : Nat} {u : Bool} {n : Nat}
    (h : goDigits cs acc u = some n) : ∀ c ∈ cs, c.isDigit = true ∨ c = '_' := by
  induction cs generalizing acc u with
  | nil => intro c hc; exact absurd hc (List.not_mem_nil c)
  | cons d rest ih =>
    intro c hc
    rw [goDigits] at h
    by_cases hd : d.isDigit
    · rw [if_pos hd] at h
      rcases List.mem_cons.mp hc with rfl | hc'
      · exact Or.inl hd
      · exact ih h c hc'
    · rw [if_neg hd] at h
      by_cases hu : d = '_'
      · rw [if_pos (by simp [hu])] at h
        cases u with
        | true => exact absurd h (by simp)
        | false =>
          rw [if_neg (by simp)] at h
          rcases List.mem_cons.mp hc with rfl | hc'
          · exact Or.inr hu
          · exact ih h c hc'
      · rw [if_neg (by simp [hu])] at h
        exact absurd h (by simp)

theorem pyDigits?_chars {cs : List Char} {n : Nat} (h : pyDigits? cs = some n) :
    ∀ c ∈ cs, c.isDigit = true ∨ c = '_' := by
  cases cs with
  | nil => intro c hc; exact absurd hc (List.not_mem_nil c)
  | cons d rest =>
    intro c hc
    rw [pyDigits?] at h
    by_cases hd : d.isDigit
    · rw [if_pos hd] at h
      rcases List.mem_cons.mp hc with rfl | hc'
      · exact Or.inl hd
      · exact goDigits_chars h c hc'
    · rw [if_neg hd] at h
      exact absurd h (by simp)

theorem pyInt?_eq_none_of_last {s : String} {c : Char}
    (hlast : (pyStripWs s.data).getLast? = some c)
    (h1 : c.isDigit = false) (h2 : c ≠ '_') (h3 : c ≠ '-') (h4 : c ≠ '+') :
    pyInt? s = Option.none := by
  unfold pyInt?
  split
  case _ rest heq =>
    rw [heq] at hlast
    cases rest with
    | nil => simp at hlast; exact absurd hlast.symm h3
    | cons r rs =>
      rw [List.getLast?_cons_cons] at hlast
      suffices hd : pyDigits? (r :: rs) = Option.none by rw [hd]; rfl
      by_contra hsome
      obtain ⟨m, hm⟩ := Option.ne_none_iff_exists'.mp hsome
      have hc := pyDigits?_chars hm c (List.mem_of_mem_getLast? hlast)
      rcases hc with hdig | hund
      · rw [hdig] at h1; exact absurd h1 (by simp)
      · exact h2 hund
  case _ rest heq =>
    rw [heq] at hlast
    cases rest with
    | nil => simp at hlast; exact absurd hlast.symm h4
    | cons r rs =>
      rw [List.getLast?_cons_cons] at hlast
      suffices hd : pyDigits? (r :: rs) = Option.none by rw [hd]; rfl
      by_contra hsome
      obtain ⟨m, hm⟩ := Option.ne_none_iff_exists'.mp hsome
      have hc := pyDigits?_chars hm c (List.mem_of_mem_getLast? hlast)
      rcases hc with hdig | hund
      · rw [hdig] at h1; exact absurd h1 (by simp)
      · exact h2 hund
  case _ cs hne1 hne2 =>
    suffices hd : pyDigits? (pyStripWs s.data) = Option.none by rw [hd]; rfl
    by_contra hsome
    obtain ⟨m, hm⟩ := Option.ne_none_iff_exists'.mp hsome
    have hc := pyDigits?_chars hm c (List.mem_of_mem_getLast? hlast)
    rcases hc with hdig | hund
    · rw [hdig] at h1; exact absurd h1 (by simp)
    · exact h2 hund

theorem stripWs_getLast {cs : List Char} {c : Char}
    (hws : isPyWs c = false) (h : cs.getLast? = some c) :
    (pyStripWs cs).getLast? = some c := by
  unfold pyStripWs
  have hsuffix : cs.dropWhile isPyWs <:+ cs := List.dropWhile_suffix _
  obtain ⟨pre, hpre⟩ := hsuffix
  have hne : cs.dropWhile isPyWs ≠ [] := by
    intro h0
    have hc : c ∈ cs := List.mem_of_mem_getLast? h
    have hall := (List.dropWhile_eq_nil_iff).mp h0 c hc
    rw [hws] at hall
    exact absurd hall (by simp)
  have h1 : (cs.dropWhile isPyWs).getLast? = some c := by
    rw [← hpre] at h
    rwa [List.getLast?_append_of_ne_nil _ hne] at h
  have h2 : (cs.dropWhile isPyWs).reverse.head? = some c := by
    rw [List.head?_reverse]; exact h1
  obtain ⟨t, ht⟩ : ∃ t, (cs.dropWhile isPyWs).reverse = c :: t := by
    cases hrev : (cs.dropWhile isPyWs).reverse with
    | nil => rw [hrev] at h2; exact absurd h2 (by simp)
    | cons a t =>
      rw [hrev] at h2
      simp only [List.head?_cons, Option.some.injEq] at h2
      exact ⟨t, by rw [h2]⟩
  rw [ht, List.dropWhile_cons, if_neg (by simp [hws])]
  rw [List.getLast?_reverse]
  rfl

theorem pyEndsWith_notfound_last {u : String} (h : pyEndsWith u _NOTFOUND_SUFFIX = true) :
    u.data.getLast? = some 'D' := by
  unfold pyEndsWith _NOTFOUND_SUFFIX at h
  have hs : "-NOTFOUND".data <:+ u.data := List.isSuffixOf_iff_suffix.mp h
  obtain ⟨pre, hpre⟩ := hs
  rw [← hpre, List.getLast?_append_of_ne_nil _ (by decide)]
  rfl

theorem pyInt?_none_of_notfound {u : String}
    (h : pyEndsWith u _NOTFOUND_SUFFIX = true) : pyInt? u = Option.none := by
  have hl := pyEndsWith_notfound_last h
  have hstrip := stripWs_getLast (c := 'D') (by decide) hl
  exact pyInt?_eq_none_of_last hstrip (by decide) (by decide) (by decide) (by decide)

theorem is_truthy_iff (v : PyVal) :
    _is_truthy v = true ↔
      (pyUpper (pyStr v) ∈ _TRUTHY_VALUES ∨
        ∃ n : Int, pyInt? (pyUpper (pyStr v)) = some n ∧ n ≠ 0) := by
  unfold _is_truthy
  by_cases hmem : pyUpper (pyStr v) ∈ _TRUTHY_VALUES
  · rw [if_pos (by simpa [List.contains, List.elem_iff] using hmem)]
    simp [hmem]
  · rw [if_neg (by simpa [List.contains, List.elem_iff] using hmem)]
    cases hint : pyInt? (pyUpper (pyStr v)) with
    | none => simp [hmem, hint]
    | some n =>
      simp only [hint, bne_iff_ne]
      constructor
      · intro hn; exact Or.inr ⟨n, rfl, hn⟩
      · rintro (h | ⟨m, hm, hm0⟩)
        · exact absurd h hmem
        · cases hm; exact hm0

theorem is_falsey_iff (v : PyVal) :
    _is_falsey v = true ↔
      (pyUpper (pyStr v) = "" ∨ pyUpper (pyStr v) ∈ _FALSEY_VALUES ∨
        pyEndsWith (pyUpper (pyStr v)) _NOTFOUND_SUFFIX = true) := by
  unfold _is_falsey
  simp [List.contains, List.elem_iff, or_assoc]

theorem falsey_not_truthy {u : String}
    (h : u = "" ∨ u ∈ _FALSEY_VALUES ∨ pyEndsWith u _NOTFOUND_SUFFIX = true) :
    ¬(u ∈ _TRUTHY_VALUES ∨ ∃ n : Int, pyInt? u = some n ∧ n ≠ 0) := by
  rintro (hmem | ⟨n, hn, hn0⟩) <;>
    rcases h with rfl | hfal | hnf
  · exact absurd hmem (by decide)
  · rcases (by simpa [_FALSEY_VALUES] using hfal :
        u = "0" ∨ u = "FALSE" ∨ u = "OFF" ∨ u = "NO" ∨ u = "N" ∨
          u = "IGNORE" ∨ u = "NOTFOUND") with
      rfl | rfl | rfl | rfl | rfl | rfl | rfl <;>
      exact absurd hmem (by decide)
  · rcases (by simpa [_TRUTHY_VALUES] using hmem :
        u = "TRUE" ∨ u = "ON" ∨ u = "YES" ∨ u = "Y") with rfl | rfl | rfl | rfl <;>
      exact absurd hnf (by decide)
  · rw [show pyInt? "" = Option.none from rfl] at hn
    exact absurd hn (by simp)
  · rcases (by simpa [_FALSEY_VALUES] using hfal :
        u = "0" ∨ u = "FALSE" ∨ u = "OFF" ∨ u = "NO" ∨ u = "N" ∨
          u = "IGNORE" ∨ u = "NOTFOUND") with
      rfl | rfl | rfl | rfl | rfl | rfl | rfl
    · rw [show pyInt? "0" = some 0 from rfl] at hn
      cases hn; exact hn0 rfl
    all_goals
      first
      | (rw [show pyInt? "FALSE" = Option.none from rfl] at hn; exact absurd hn (by simp))
      | (rw [show pyInt? "OFF" = Option.none from rfl] at hn; exact absurd hn (by simp))
      | (rw [show pyInt? "NO" = Option.none from rfl] at hn; exact absurd hn (by simp))
      | (rw [show pyInt? "N" = Option.none from rfl] at hn; exact absurd hn (by simp))
      | (rw [show pyInt? "IGNORE" = Option.none from rfl] at hn; exact absurd hn (by simp))
      | (rw [show pyInt? "NOTFOUND" = Option.none from rfl] at hn; exact absurd hn (by simp))
  · rw [pyInt?_none_of_notfound hnf] at hn
    exact absurd hn (by simp)

-- ------------------------------------------------------------------
-- Claim theorems

/-- C1: boolean coercion uppercases the textual form of the value and
returns true exactly when that text is one of the `_TRUTHY_VALUES`
(`TRUE`, `ON`, `YES`, `Y`) or parses as a nonzero integer; it returns
false exactly when the text is empty, one of the `_FALSEY_VALUES`
(`0`, `FALSE`, `OFF`, `NO`, `N`, `IGNORE`, `NOTFOUND`), or ends with the
suffix `-NOTFOUND`; and it fails with `InvalidBoolean` for every other
input, for example the text `maybe`, the floating-point text `2.5`, or
the text `1__1`, whose consecutive underscores Python's `int()` rejects
(while the single-underscore literal `1_0` parses as the nonzero 10). -/
theorem C1_cmake_bool_classification (v : PyVal) :
    (_cmake_bool v = .ok true ↔
      (pyUpper (pyStr v) ∈ _TRUTHY_VALUES ∨
        ∃ n : Int, pyInt? (pyUpper (pyStr v)) = some n ∧ n ≠ 0)) ∧
    (_cmake_bool v = .ok false ↔
      (pyUpper (pyStr v) = "" ∨ pyUpper (pyStr v) ∈ _FALSEY_VALUES ∨
        pyEndsWith (pyUpper (pyStr v)) _NOTFOUND_SUFFIX = true)) ∧
    (_cmake_bool v = .error .invalidBoolean ↔
      (¬(pyUpper (pyStr v) ∈ _TRUTHY_VALUES ∨
          ∃ n : Int, pyInt? (pyUpper (pyStr v)) = some n ∧ n ≠ 0) ∧
        ¬(pyUpper (pyStr v) = "" ∨ pyUpper (pyStr v) ∈ _FALSEY_VALUES ∨
          pyEndsWith (pyUpper (pyStr v)) _NOTFOUND_SUFFIX = true))) ∧
    _cmake_bool (.str "maybe") = .error .invalidBoolean ∧
    _cmake_bool (.str "2.5") = .error .invalidBoolean ∧
    _cmake_bool (.str "1__1") = .error .invalidBoolean ∧
    _cmake_bool (.str "1_0") = .ok true := by
  refine ⟨?_, ?_, ?_, rfl, rfl, rfl, rfl⟩
  · rw [← is_truthy_iff]
    unfold _cmake_bool
    by_cases ht : _is_truthy v
    · simp [ht]
    · cases hf : _is_falsey v <;> simp [ht, hf]
  · constructor
    · intro h
      unfold _cmake_bool at h
      by_cases ht : _is_truthy v
      · rw [if_pos ht] at h; exact absurd h (by simp)
      · by_cases hf : _is_falsey v
        · exact (is_falsey_iff v).mp hf
        · rw [if_neg ht, if_neg hf] at h; exact absurd h (by simp)
    · intro h
      have hnt : _is_truthy v = false := by
        cases ht : _is_truthy v
        · rfl
        · exact absurd ((is_truthy_iff v).mp ht) (falsey_not_truthy h)
      have hf : _is_falsey v = true := (is_falsey_iff v).mpr h
      unfold _cmake_bool
      rw [if_neg (by simp [hnt]), if_pos hf]
  · rw [← is_truthy_iff, ← is_falsey_iff]
    unfold _cmake_bool
    cases ht : _is_truthy v <;> cases hf : _is_falsey v <;> simp [ht, hf]

theorem nonempty_name_length {name : String} (h : name ≠ "") : ¬(name.length < 1) := by
  intro hl
  apply h
  have h0 : name.length = 0 := Nat.lt_one_iff.mp hl
  cases name with
  | mk data =>
    cases data with
    | nil => rfl
    | cons c cs => simp [String.length] at h0

/-- C2: constructing a cache entry with a non-empty string name wraps a
list value as `List` with type forced to `STRING` (any caller type
discarded); wraps a bool value, or any non-list value when the caller
passes the `BOOL` registry member as the type, as `Bool` via the
truthy/falsey coercion with type forced to `BOOL`; and wraps every other
value as `Scalar` with the caller-supplied type (possibly absent).  In
particular `set("X", [1,2,3])` yields `value_type = STRING`, `value =
[1,2,3]`, and renders as `X:STRING=1;2;3`. -/
theorem C2_entry_construction (name : String) (h : name ≠ "") :
    (∀ (l : List PyVal) (vt : VTArg),
        CMakeCacheEntry.init (.str name) (.list l) vt
          = .ok ⟨name, .listW l, some .STRING⟩) ∧
    (∀ (b : Bool) (vt : VTArg),
        CMakeCacheEntry.init (.str name) (.bool b) vt
          = .ok ⟨name, .boolW b, some .BOOL⟩) ∧
    (∀ (v : PyVal), isPyList v = false →
        CMakeCacheEntry.init (.str name) v (.member .BOOL)
          = (_cmake_bool v).map (fun b => ⟨name, .boolW b, some .BOOL⟩)) ∧
    (∀ (v : PyVal) (vt : Option CMakeValueType),
        isPyList v = false → isPyBool v = false → vt ≠ some .BOOL →
        CMakeCacheEntry.init (.str name) v (VTArg.ofOption vt)
          = .ok ⟨name, .scalar v, vt⟩) ∧
    (∀ e, CMakeCacheEntry.init (.str "X") (.list [.int 1, .int 2, .int 3]) .noneA
            = .ok e →
        e.value_type = some .STRING ∧ e.value = .list [.int 1, .int 2, .int 3] ∧
        e.render = "X:STRING=1;2;3") := by
  have hlen := nonempty_name_length h
  refine ⟨?_, ?_, ?_, ?_, ?_⟩
  · intro l vt
    simp only [CMakeCacheEntry.init]
    rw [if_neg hlen]
    rfl
  · intro b vt
    simp only [CMakeCacheEntry.init]
    rw [if_neg hlen]
    cases b <;> rfl
  · intro v hv
    simp only [CMakeCacheEntry.init]
    rw [if_neg hlen, if_neg (by simp [hv]), if_pos (by simp [VTArg.eqBOOL])]
    unfold _BoolWrapper.mk
    cases hb : _cmake_bool v <;> simp [hb, Except.map] <;> rfl
  · intro v vt hv hb hvt
    simp only [CMakeCacheEntry.init]
    have heq : VTArg.eqBOOL (VTArg.ofOption vt) = false := by
      cases vt with
      | none => rfl
      | some t =>
        cases t with
        | BOOL => exact absurd rfl hvt
        | _ => rfl
    rw [if_neg hlen, if_neg (by simp [hv]), if_neg (by simp [hb, heq])]
    cases vt with
    | none => rfl
    | some t => rfl
  · intro e he
    have : CMakeCacheEntry.init (.str "X") (.list [.int 1, .int 2, .int 3]) .noneA
        = .ok ⟨"X", .listW [.int 1, .int 2, .int 3], some .STRING⟩ := rfl
    rw [this] at he
    cases he
    exact ⟨rfl, rfl, rfl⟩

/-- Witness for C2 at the concrete name `X`. -/
theorem C2_entry_construction_witness :
    ("X" : String) ≠ "" ∧
      CMakeCacheEntry.init (.str "X") (.list [.int 1]) .noneA
        = .ok ⟨"X", .listW [.int 1], some .STRING⟩ :=
  ⟨by decide, (C2_entry_construction "X" (by decide)).1 [.int 1] .noneA⟩

/-- C3: an entry renders as `NAME=VALUE` without a type and
`NAME:TYPE=VALUE` with one; bool values render as uppercase
`TRUE`/`FALSE`; list values join their elements' text with `;` (the empty
list rendering as the empty string); `args` prepends `-D` to each entry's
text in container order; and the four-entry example from the spec
produces exactly the expected argument list. -/
theorem C3_rendering_and_args :
    (∀ (n : String) (w : ValueWrapper),
        CMakeCacheEntry.render ⟨n, w, Option.none⟩ = n ++ "=" ++ wrapperStr w) ∧
    (∀ (n : String) (w : ValueWrapper) (t : CMakeValueType),
        CMakeCacheEntry.render ⟨n, w, some t⟩
          = n ++ ":" ++ t.name ++ "=" ++ wrapperStr w) ∧
    wrapperStr (.boolW true) = "TRUE" ∧
    wrapperStr (.boolW false) = "FALSE" ∧
    (∀ l, wrapperStr (.listW l) = String.intercalate ";" (l.map pyStr)) ∧
    wrapperStr (.listW []) = "" ∧
    (∀ c : CMakeCache,
        c.args = c._entries.map (fun p => "-D" ++ p.2.render)) ∧
    (do
      let c1 ← CMakeCache.set CMakeCache.empty (.str "FOO") (.bool false) .noneA
      let c2 ← CMakeCache.set c1 (.str "BAR") (.str "Foo") .noneA
      let c3 ← CMakeCache.set c2 (.str "BAZ") (.int 42) .noneA
      let c4 ← CMakeCache.set c3 (.str "QUX")
        (.list [.str "A", .str "B", .str "C"]) .noneA
      pure c4.args)
      = Except.ok ["-DFOO:BOOL=FALSE", "-DBAR=Foo", "-DBAZ=42", "-DQUX:STRING=A;B;C"] := by
  refine ⟨fun n w => rfl, fun n w t => rfl, rfl, rfl, fun l => rfl, rfl, ?_, rfl⟩
  intro c
  unfold CMakeCache.args CMakeCache.entries
  rw [List.map_map]
  rfl

-- ------------------------------------------------------------------
-- Helper lemmas about ordered assignment

theorem odAssign_keys (l : List (String × CMakeCacheEntry)) (k : String)
    (e : CMakeCacheEntry) :
    (odAssign l k e).map Prod.fst =
      if l.any (fun p => p.1 == k) then l.map Prod.fst
      else l.map Prod.fst ++ [k] := by
  unfold odAssign
  by_cases hany : l.any (fun p => p.1 == k)
  · rw [if_pos hany, if_pos hany, List.map_map]
    apply List.map_eq_map_iff.mpr
    intro p hp
    by_cases hpk : p.1 == k
    · simp only [Function.comp_apply, hpk, if_pos]
      exact (eq_of_beq hpk).symm
    · simp only [Function.comp_apply, hpk]
      rfl
  · rw [if_neg hany, if_neg hany, List.map_append]
    rfl

theorem find?_replace (l : List (String × CMakeCacheEntry)) (k k' : String)
    (e : CMakeCacheEntry) (h : k' ≠ k) :
    (l.map (fun p => if p.1 == k then (k, e) else p)).find? (fun p => p.1 == k')
      = l.find? (fun p => p.1 == k') := by
  induction l with
  | nil => rfl
  | cons p t ih =>
    rw [List.map_cons, List.find?_cons, List.find?_cons]
    by_cases hpk : p.1 == k
    · rw [if_pos hpk]
      have hk : (k == k') = false := by
        simp only [beq_eq_false_iff_ne, ne_eq]
        exact fun hkk => h hkk.symm
      have hp1 : (p.1 == k') = false := by
        rw [eq_of_beq hpk]
        exact hk
      simp only [hk, hp1, ih]
    · rw [if_neg hpk]
      by_cases hpk' : p.1 == k'
      · simp only [hpk']
      · simp only [hpk', Bool.false_eq_true, ih]

theorem find?_replace_self (l : List (String × CMakeCacheEntry)) (k : String)
    (e : CMakeCacheEntry) (h : l.any (fun p => p.1 == k) = true) :
    (l.map (fun p => if p.1 == k then (k, e) else p)).find? (fun p => p.1 == k)
      = some (k, e) := by
  induction l with
  | nil => simp at h
  | cons p t ih =>
    rw [List.map_cons, List.find?_cons]
    by_cases hpk : p.1 == k
    · rw [if_pos hpk]
      simp
    · rw [if_neg hpk]
      rw [List.any_cons] at h
      simp only [hpk, Bool.false_or] at h
      simp only [hpk, Bool.false_eq_true]
      exact ih h

theorem odAssign_find? (l : List (String × CMakeCacheEntry)) (k : String)
    (e : CMakeCacheEntry) (k' : String) :
    (odAssign l k e).find? (fun p => p.1 == k') =
      if k' = k then some (k, e) else l.find? (fun p => p.1 == k') := by
  unfold odAssign
  by_cases hany : l.any (fun p => p.1 == k)
  · rw [if_pos hany]
    by_cases hk : k' = k
    · subst hk
      rw [if_pos rfl]
      exact find?_replace_self l k' e hany
    · rw [if_neg hk]
      exact find?_replace l k k' e hk
  · rw [if_neg hany, List.find?_append]
    by_cases hk : k' = k
    · subst hk
      rw [if_pos rfl]
      have hnone : l.find? (fun p => p.1 == k') = Option.none := by
        rw [List.find?_eq_none]
        intro p hp hpk
        exact hany (List.any_eq_true.mpr ⟨p, hp, hpk⟩)
      rw [hnone]
      simp
    · rw [if_neg hk]
      have hsingle : List.find? (fun p => p.1 == k') [(k, e)] = Option.none := by
        rw [List.find?_eq_none]
        intro p hp hpk
        rw [List.mem_singleton] at hp
        subst hp
        exact hk (eq_of_beq hpk).symm
      rw [hsingle]
      cases l.find? (fun p => p.1 == k') <;> rfl

theorem init_name {n : String} {v : PyVal} {vt : VTArg} {e : CMakeCacheEntry}
    (h : CMakeCacheEntry.init (.str n) v vt = .ok e) : e._name = n := by
  simp only [CMakeCacheEntry.init] at h
  by_cases hlen : n.length < 1
  · rw [if_pos hlen] at h
    exact absurd h (by simp)
  · rw [if_neg hlen] at h
    by_cases h1 : isPyList v
    · rw [if_pos h1] at h
      cases hw : _ListWrapper.mk v with
      | error err =>
        rw [hw] at h
        exact absurd h (by simp [Bind.bind, Except.bind])
      | ok w =>
        rw [hw] at h
        simp only [Bind.bind, Except.bind, Except.ok.injEq] at h
        rw [← h]
    · rw [if_neg h1] at h
      by_cases h2 : (isPyBool v || VTArg.eqBOOL vt)
      · rw [if_pos h2] at h
        cases hw : _BoolWrapper.mk v with
        | error err =>
          rw [hw] at h
          exact absurd h (by simp [Bind.bind, Except.bind])
        | ok w =>
          rw [hw] at h
          simp only [Bind.bind, Except.bind, Except.ok.injEq] at h
          rw [← h]
      · rw [if_neg h2] at h
        cases hw : VTArg.resolve vt with
        | error err =>
          rw [hw] at h
          exact absurd h (by simp [Bind.bind, Except.bind])
        | ok vtr =>
          rw [hw] at h
          simp only [Bind.bind, Except.bind, Except.ok.injEq] at h
          rw [← h]

/-- C4: iteration order is first-insertion order and operations preserve
it: assigning an existing name replaces its entry in place (the key list
is unchanged, and lookups of other names are untouched), assigning a new
name appends it; `set` obeys the same rule at the container level; and
merging a container holding `A,B,C` with one holding `B,D` yields order
`A,B,C,D` with `B` taking the second container's value. -/
theorem C4_insertion_order :
    (∀ (l : List (String × CMakeCacheEntry)) (k : String) (e : CMakeCacheEntry),
        (odAssign l k e).map Prod.fst =
          if l.any (fun p => p.1 == k) then l.map Prod.fst
          else l.map Prod.fst ++ [k]) ∧
    (∀ (l : List (String × CMakeCacheEntry)) (k : String) (e : CMakeCacheEntry)
        (k' : String),
        (odAssign l k e).find? (fun p => p.1 == k') =
          if k' = k then some (k, e) else l.find? (fun p => p.1 == k')) ∧
    (∀ (c c' : CMakeCache) (n : String) (v : PyVal) (vt : VTArg),
        CMakeCache.set c (.str n) v vt = .ok c' →
        c'._entries.map Prod.fst =
          if c._entries.any (fun p => p.1 == n) then c._entries.map Prod.fst
          else c._entries.map Prod.fst ++ [n]) ∧
    (do
      let a1 ← CMakeCache.set CMakeCache.empty (.str "A") (.int 1) .noneA
      let a2 ← CMakeCache.set a1 (.str "B") (.int 2) .noneA
      let a3 ← CMakeCache.set a2 (.str "C") (.int 3) .noneA
      let o1 ← CMakeCache.set CMakeCache.empty (.str "B") (.int 20) .noneA
      let o2 ← CMakeCache.set o1 (.str "D") (.int 4) .noneA
      pure (a3.add o2).args)
      = Except.ok ["-DA=1", "-DB=20", "-DC=3", "-DD=4"] := by
  refine ⟨odAssign_keys, odAssign_find?, ?_, rfl⟩
  intro c c' n v vt hset
  unfold CMakeCache.set at hset
  cases hinit : CMakeCacheEntry.init (.str n) v vt with
  | error err =>
    rw [hinit] at hset
    exact absurd hset (by simp [Except.map])
  | ok e =>
    rw [hinit] at hset
    simp only [Except.map, Except.ok.injEq] at hset
    have hname := init_name hinit
    rw [← hset]
    show (odAssign c._entries e._name e).map Prod.fst = _
    rw [hname]
    exact odAssign_keys c._entries n e

/-- Witness for C4's `set`-level order conjunct at a concrete input. -/
theorem C4_insertion_order_witness :
    (⟨[("A", ⟨"A", ValueWrapper.scalar (.int 1), Option.none⟩)]⟩ : CMakeCache)._entries.map Prod.fst
      = if CMakeCache.empty._entries.any (fun p => p.1 == "A")
        then CMakeCache.empty._entries.map Prod.fst
        else CMakeCache.empty._entries.map Prod.fst ++ ["A"] :=
  C4_insertion_order.2.2.1 CMakeCache.empty
    ⟨[("A", ⟨"A", ValueWrapper.scalar (.int 1), Option.none⟩)]⟩ "A" (.int 1) .noneA rfl

/-- C5 counterexample: the claim says two representations of different
variants are never equal, but a `Scalar` wrapper holding the boolean true
compares equal to a `Bool` wrapper holding true (in both orientations),
and a `Scalar` holding a list compares equal to a `List` wrapper holding
the same list: the base class `__eq__` accepts any wrapper instance. -/
theorem C5_counterexample :
    wrapperEq (.scalar (.bool true)) (.boolW true) = true ∧
    wrapperEq (.boolW true) (.scalar (.bool true)) = true ∧
    wrapperEq (.scalar (.list [.int 1])) (.listW [.int 1]) = true :=
  ⟨rfl, rfl, rfl⟩

/-- C5 (amended): equality between same-variant representations compares
the contained values, and a `Bool` and a `List` representation are never
equal in either order; but a `Scalar` representation is equal to a `Bool`
or `List` representation whenever its contained value equals the other's,
in either orientation, because the base-class equality accepts every
wrapper instance. -/
theorem C5_equality_by_variant :
    (∀ b l, wrapperEq (.boolW b) (.listW l) = false) ∧
    (∀ l b, wrapperEq (.listW l) (.boolW b) = false) ∧
    (∀ b c, wrapperEq (.boolW b) (.boolW c) = pyEq (.bool b) (.bool c)) ∧
    (∀ l m, wrapperEq (.listW l) (.listW m) = pyEq (.list l) (.list m)) ∧
    (∀ v w, wrapperEq (.scalar v) w = pyEq v w.value) ∧
    (∀ v b, wrapperEq (.boolW b) (.scalar v) = pyEq v (.bool b)) ∧
    (∀ v l, wrapperEq (.listW l) (.scalar v) = pyEq v (.list l)) :=
  ⟨fun _ _ => rfl, fun _ _ => rfl, fun _ _ => rfl, fun _ _ => rfl,
    fun _ _ => rfl, fun _ _ => rfl, fun _ _ => rfl⟩

/-- C6 counterexample: the claim says a `Scalar` holding the absent/null
value renders as the empty string, but `str(None)` is `"None"`. -/
theorem C6_counterexample :
    wrapperStr (.scalar .none) = "None" ∧ wrapperStr (.scalar .none) ≠ "" :=
  ⟨rfl, by decide⟩

/-- C6 (amended): a `Scalar` representation renders as the Python `str`
of its contained value, so the absent/null value renders as the text
`None` (not the empty string) while other scalars render in their natural
text form (`42` as `"42"`, a string as itself). -/
theorem C6_scalar_rendering :
    (∀ v, wrapperStr (.scalar v) = pyStr v) ∧
    pyStr .none = "None" ∧
    pyStr (.int 42) = "42" ∧
    pyStr (.str "Foo") = "Foo" :=
  ⟨fun _ => rfl, rfl, rfl, rfl⟩

/-- C8: a `set` whose entry construction fails propagates the failure and
produces no container: `InvalidName` for a non-text or empty name,
`InvalidBoolean` for a value that is neither truthy nor falsey when
`BOOL` is forced, `UnknownType` for an unrecognized type name. -/
theorem C8_failed_construction (c : CMakeCache) (name value : PyVal) (vt : VTArg)
    (e : PyErr) (h : CMakeCacheEntry.init name value vt = .error e) :
    CMakeCache.set c name value vt = .error e ∧
    (∀ c', CMakeCache.set c name value vt ≠ .ok c') ∧
    CMakeCacheEntry.init (.int 1) (.str "V") .noneA = .error .invalidName ∧
    CMakeCacheEntry.init (.str "") (.str "V") .noneA = .error .invalidName ∧
    CMakeCacheEntry.init (.str "X") (.str "maybe") (.member .BOOL)
      = .error .invalidBoolean ∧
    CMakeCacheEntry.init (.str "X") (.str "V") (.text "BOGUS")
      = .error .unknownType := by
  have hset : CMakeCache.set c name value vt = .error e := by
    unfold CMakeCache.set
    rw [h]
    rfl
  refine ⟨hset, ?_, rfl, rfl, rfl, rfl⟩
  intro c' hc
  rw [hset] at hc
  exact absurd hc (by simp)

/-- Witness for C8 at the empty-name failure. -/
theorem C8_failed_construction_witness :
    CMakeCache.set CMakeCache.empty (.str "") (.str "V") .noneA
      = .error .invalidName :=
  (C8_failed_construction CMakeCache.empty (.str "") (.str "V") .noneA
    .invalidName rfl).1

/-- C9: a caller-supplied textual type `"BOOL"` together with a non-bool,
non-list value does not trigger boolean validation: the value is wrapped
as a `Scalar` unchanged and the type is resolved to the `BOOL` member
afterwards, so `set("X", "1", "BOOL")` renders as `X:BOOL=1`, not
`X:BOOL=TRUE`. -/
theorem C9_text_BOOL_type (name : String) (v : PyVal) (hn : name ≠ "")
    (h1 : isPyList v = false) (h2 : isPyBool v = false) :
    CMakeCacheEntry.init (.str name) v (.text "BOOL")
      = .ok ⟨name, .scalar v, some .BOOL⟩ ∧
    (do
      let c1 ← CMakeCache.set CMakeCache.empty (.str "X") (.str "1") (.text "BOOL")
      pure c1.args) = Except.ok ["-DX:BOOL=1"] := by
  refine ⟨?_, rfl⟩
  simp only [CMakeCacheEntry.init]
  rw [if_neg (nonempty_name_length hn), if_neg (by simp [h1]),
    if_neg (by simp [h2, VTArg.eqBOOL])]
  rfl

/-- Witness for C9 at the concrete input from the claim. -/
theorem C9_text_BOOL_type_witness :
    CMakeCacheEntry.init (.str "X") (.str "1") (.text "BOOL")
      = .ok ⟨"X", .scalar (.str "1"), some .BOOL⟩ :=
  (C9_text_BOOL_type "X" (.str "1") (by decide) rfl rfl).1

/-- C7: `unset` fails with `NotFound` exactly when the name is absent
(`get` with default `None` returns `None`), and after a successful `set`
followed by `unset` the container behaves as if the name was never set:
`get` returns the default and a second `unset` fails with `NotFound`.
`get` is total and never fails. -/
theorem C7_unset_get (c c' : CMakeCache) (n : String) (v : PyVal) (vt : VTArg)
    (h : CMakeCache.set c (.str n) v vt = .ok c') :
    (∀ (c0 : CMakeCache) (m : String),
        c0.unset m = .error .notFound ↔ c0.get m Option.none = Option.none) ∧
    ∃ c'', c'.unset n = .ok c'' ∧ (∀ d, c''.get n d = d) ∧
      c''.unset n = .error .notFound := by
  constructor
  · intro c0 m
    unfold CMakeCache.unset CMakeCache.get
    by_cases hany : c0._entries.any (fun p => p.1 == m)
    · rw [if_pos hany]
      constructor
      · intro hh
        exact absurd hh (by simp)
      · intro hh
        obtain ⟨p, hp, hpm⟩ := List.any_eq_true.mp hany
        cases hf : c0._entries.find? (fun q => q.1 == m) with
        | none =>
          rw [List.find?_eq_none] at hf
          exact absurd hpm (hf p hp)
        | some q =>
          rw [hf] at hh
          exact absurd hh (by simp)
    · rw [if_neg hany]
      constructor
      · intro _
        cases hf : c0._entries.find? (fun q => q.1 == m) with
        | none => rfl
        | some q =>
          have hq := List.find?_some hf
          have hmem := List.mem_of_find?_eq_some hf
          exact absurd (List.any_eq_true.mpr ⟨q, hmem, hq⟩) hany
      · intro _
        rfl
  · unfold CMakeCache.set at h
    cases hinit : CMakeCacheEntry.init (.str n) v vt with
    | error err =>
      rw [hinit] at h
      exact absurd h (by simp [Except.map])
    | ok e =>
      rw [hinit] at h
      simp only [Except.map, Except.ok.injEq] at h
      have hname := init_name hinit
      have hfind : c'._entries.find? (fun p => p.1 == n) = some (n, e) := by
        rw [← h]
        show (odAssign c._entries e._name e).find? (fun p => p.1 == n) = some (n, e)
        rw [hname, odAssign_find?, if_pos rfl]
      have hpq : (((n, e) : String × CMakeCacheEntry).1 == n) = true := by simp
      have hany : c'._entries.any (fun p => p.1 == n) = true :=
        List.any_eq_true.mpr
          ⟨(n, e), List.mem_of_find?_eq_some hfind, hpq⟩
      refine ⟨⟨c'._entries.filter (fun p => !(p.1 == n))⟩, ?_, ?_, ?_⟩
      · unfold CMakeCache.unset
        rw [if_pos hany]
      · intro d
        unfold CMakeCache.get
        have hnone : (c'._entries.filter (fun p => !(p.1 == n))).find?
            (fun p => p.1 == n) = Option.none := by
          rw [List.find?_eq_none]
          intro x hx hxn
          have hfil := (List.mem_filter.mp hx).2
          rw [hxn] at hfil
          exact absurd hfil (by simp)
        rw [hnone]
      · unfold CMakeCache.unset
        rw [if_neg]
        intro hcon
        obtain ⟨x, hx, hxn⟩ := List.any_eq_true.mp hcon
        have hfil := (List.mem_filter.mp hx).2
        rw [hxn] at hfil
        exact absurd hfil (by simp)

/-- Witness for C7: set `A` into the empty cache, then unset it. -/
theorem C7_unset_get_witness :
    (∀ (c0 : CMakeCache) (m : String),
        c0.unset m = .error .notFound ↔ c0.get m Option.none = Option.none) ∧
    ∃ c'', (⟨[("A", ⟨"A", ValueWrapper.scalar (.int 1), Option.none⟩)]⟩ :
        CMakeCache).unset "A" = .ok c'' ∧
      (∀ d, c''.get "A" d = d) ∧ c''.unset "A" = .error .notFound :=
  C7_unset_get CMakeCache.empty
    ⟨[("A", ⟨"A", ValueWrapper.scalar (.int 1), Option.none⟩)]⟩ "A" (.int 1)
    .noneA rfl

theorem cmake_bool_error {v : PyVal} {e : PyErr} (h : _cmake_bool v = .error e) :
    e = .invalidBoolean := by
  unfold _cmake_bool at h
  by_cases ht : _is_truthy v
  · rw [if_pos ht] at h
    exact absurd h (by simp)
  · rw [if_neg ht] at h
    by_cases hf : _is_falsey v
    · rw [if_pos hf] at h
      exact absurd h (by simp)
    · rw [if_neg hf] at h
      injection h with h'
      exact h'.symm

theorem resolve_error {vt : VTArg} {e : PyErr} (h : VTArg.resolve vt = .error e) :
    e = .unknownType := by
  cases vt with
  | noneA => exact absurd h (by simp [VTArg.resolve])
  | member t => exact absurd h (by simp [VTArg.resolve])
  | text s =>
    simp only [VTArg.resolve, CMakeValueType.from_name] at h
    split_ifs at h <;> simp_all [Except.map]

theorem isPyList_inv {v : PyVal} (h : isPyList v = true) : ∃ l, v = .list l := by
  cases v with
  | list l => exact ⟨l, rfl⟩
  | str s => simp [isPyList] at h
  | bool b => simp [isPyList] at h
  | int n => simp [isPyList] at h
  | none => simp [isPyList] at h
  | tuple t => simp [isPyList] at h

theorem init_error_cases {n v : PyVal} {vt : VTArg} {e : PyErr}
    (h : CMakeCacheEntry.init n v vt = .error e) :
    e = .invalidName ∨ e = .invalidBoolean ∨ e = .unknownType := by
  cases n with
  | str ns =>
    simp only [CMakeCacheEntry.init] at h
    by_cases hlen : ns.length < 1
    · rw [if_pos hlen] at h
      injection h with h'
      exact Or.inl h'.symm
    · rw [if_neg hlen] at h
      by_cases h1 : isPyList v
      · rw [if_pos h1] at h
        obtain ⟨l, rfl⟩ := isPyList_inv h1
        exact absurd h (by simp [_ListWrapper.mk, Bind.bind, Except.bind])
      · rw [if_neg h1] at h
        by_cases h2 : (isPyBool v || VTArg.eqBOOL vt)
        · rw [if_pos h2] at h
          cases hw : _BoolWrapper.mk v with
          | error err =>
            rw [hw] at h
            have hh : err = e := by
              simpa only [Bind.bind, Except.bind, Except.error.injEq] using h
            unfold _BoolWrapper.mk at hw
            cases hb : _cmake_bool v with
            | ok b => rw [hb] at hw; exact absurd hw (by simp [Except.map])
            | error err' =>
              rw [hb] at hw
              have : err' = err := by
                simpa only [Except.map, Except.error.injEq] using hw
              exact Or.inr (Or.inl (by rw [← hh, ← this]; exact cmake_bool_error hb))
          | ok w =>
            rw [hw] at h
            exact absurd h (by simp [Bind.bind, Except.bind])
        · rw [if_neg h2] at h
          cases hw : VTArg.resolve vt with
          | error err =>
            rw [hw] at h
            have hh : err = e := by
              simpa only [Bind.bind, Except.bind, Except.error.injEq] using h
            exact Or.inr (Or.inr (by rw [← hh]; exact resolve_error hw))
          | ok vtr =>
            rw [hw] at h
            exact absurd h (by simp [Bind.bind, Except.bind])
  | bool b => injection h with h'; exact Or.inl h'.symm
  | int m => injection h with h'; exact Or.inl h'.symm
  | none => injection h with h'; exact Or.inl h'.symm
  | list l => injection h with h'; exact Or.inl h'.symm
  | tuple t => injection h with h'; exact Or.inl h'.symm

theorem init_ok_cases {n v : PyVal} {vt : VTArg} {e : CMakeCacheEntry}
    (h : CMakeCacheEntry.init n v vt = .ok e) :
    (∃ ns l, n = .str ns ∧ v = .list l ∧ e = ⟨ns, .listW l, some .STRING⟩) ∨
    (∃ ns b, n = .str ns ∧ isPyList v = false ∧ _cmake_bool v = .ok b ∧
      e = ⟨ns, .boolW b, some .BOOL⟩) ∨
    (∃ ns vtr, n = .str ns ∧ isPyList v = false ∧ isPyBool v = false ∧
      VTArg.eqBOOL vt = false ∧ VTArg.resolve vt = .ok vtr ∧
      e = ⟨ns, .scalar v, vtr⟩) := by
  cases n with
  | str ns =>
    simp only [CMakeCacheEntry.init] at h
    by_cases hlen : ns.length < 1
    · rw [if_pos hlen] at h
      exact absurd h (by simp)
    · rw [if_neg hlen] at h
      by_cases h1 : isPyList v
      · rw [if_pos h1] at h
        obtain ⟨l, rfl⟩ := isPyList_inv h1
        left
        refine ⟨ns, l, rfl, rfl, ?_⟩
        have : _ListWrapper.mk (.list l) = .ok (.listW l) := rfl
        rw [this] at h
        simp only [Bind.bind, Except.bind, Except.ok.injEq] at h
        exact h.symm
      · rw [if_neg h1] at h
        by_cases h2 : (isPyBool v || VTArg.eqBOOL vt)
        · rw [if_pos h2] at h
          cases hb : _cmake_bool v with
          | error err =>
            have : _BoolWrapper.mk v = .error err := by
              unfold _BoolWrapper.mk
              rw [hb]
              rfl
            rw [this] at h
            exact absurd h (by simp [Bind.bind, Except.bind])
          | ok b =>
            have : _BoolWrapper.mk v = .ok (.boolW b) := by
              unfold _BoolWrapper.mk
              rw [hb]
              rfl
            rw [this] at h
            simp only [Bind.bind, Except.bind, Except.ok.injEq] at h
            right
            left
            exact ⟨ns, b, rfl, eq_false_of_ne_true h1, rfl, h.symm⟩
        · rw [if_neg h2] at h
          cases hw : VTArg.resolve vt with
          | error err =>
            rw [hw] at h
            exact absurd h (by simp [Bind.bind, Except.bind])
          | ok vtr =>
            rw [hw] at h
            simp only [Bind.bind, Except.bind, Except.ok.injEq] at h
            right
            right
            rw [Bool.or_eq_true] at h2
            push_neg at h2
            exact ⟨ns, vtr, rfl, eq_false_of_ne_true h1,
              eq_false_of_ne_true h2.1, eq_false_of_ne_true h2.2, rfl, h.symm⟩
  | bool b => exact absurd h (by simp [CMakeCacheEntry.init])
  | int m => exact absurd h (by simp [CMakeCacheEntry.init])
  | none => exact absurd h (by simp [CMakeCacheEntry.init])
  | list l => exact absurd h (by simp [CMakeCacheEntry.init])
  | tuple t => exact absurd h (by simp [CMakeCacheEntry.init])

/-- C10: entry construction never produces a `List` representation from a
value that is not an actual list (tuples and other values become `Scalar`
or `Bool` entries), so the `InvalidListValue` branch of the list wrapper
is unreachable through entry construction; in particular a tuple value
yields a `Scalar` entry. -/
theorem C10_list_branch_unreachable :
    (∀ (n v : PyVal) (vt : VTArg),
        CMakeCacheEntry.init n v vt ≠ .error .invalidListValue) ∧
    (∀ (n v : PyVal) (vt : VTArg) (e : CMakeCacheEntry) (l : List PyVal),
        CMakeCacheEntry.init n v vt = .ok e → e._value_wrapper = .listW l →
        v = .list l) ∧
    (∀ (n v : PyVal) (vt : VTArg) (e : CMakeCacheEntry),
        isPyList v = false → CMakeCacheEntry.init n v vt = .ok e →
        (∃ b, e._value_wrapper = .boolW b) ∨ e._value_wrapper = .scalar v) ∧
    CMakeCacheEntry.init (.str "X") (.tuple [.int 1, .int 2]) .noneA
      = .ok ⟨"X", .scalar (.tuple [.int 1, .int 2]), Option.none⟩ := by
  refine ⟨?_, ?_, ?_, rfl⟩
  · intro n v vt hcon
    rcases init_error_cases hcon with h | h | h <;> exact absurd h (by decide)
  · intro n v vt e l hok hw
    rcases init_ok_cases hok with ⟨ns, l', hn, hv, he⟩ |
        ⟨ns, b, hn, hvl, hb, he⟩ | ⟨ns, vtr, hn, hvl, hvb, hvt, hres, he⟩
    · rw [he] at hw
      simp only at hw
      injection hw with hw'
      rw [hv, hw']
    · rw [he] at hw
      exact absurd hw (by simp)
    · rw [he] at hw
      exact absurd hw (by simp)
  · intro n v vt e hv hok
    rcases init_ok_cases hok with ⟨ns, l', hn, hvl, he⟩ |
        ⟨ns, b, hn, hvl, hb, he⟩ | ⟨ns, vtr, hn, hvl, hvb, hvt, hres, he⟩
    · rw [hvl] at hv
      exact absurd hv (by simp [isPyList])
    · exact Or.inl ⟨b, by rw [he]⟩
    · exact Or.inr (by rw [he])

/-- Witness for C10's conjuncts with hypotheses, at concrete inputs. -/
theorem C10_list_branch_unreachable_witness :
    ((.tuple [.int 1] : PyVal) = .list [.int 1] ∨
      (∃ b, (⟨"X", ValueWrapper.scalar (.tuple [.int 1]), Option.none⟩ :
          CMakeCacheEntry)._value_wrapper = .boolW b) ∨
      (⟨"X", ValueWrapper.scalar (.tuple [.int 1]), Option.none⟩ :
          CMakeCacheEntry)._value_wrapper = .scalar (.tuple [.int 1])) ∧
    CMakeCacheEntry.init (.str "Y") (.int 7) .noneA ≠ .error .invalidListValue := by
  constructor
  · refine Or.inr ?_
    exact C10_list_branch_unreachable.2.2.1 (.str "X") (.tuple [.int 1]) .noneA
      ⟨"X", ValueWrapper.scalar (.tuple [.int 1]), Option.none⟩ rfl rfl
  · exact C10_list_branch_unreachable.1 (.str "Y") (.int 7) .noneA
